import Mathlib

/-!
Verification of the streaming 7z extraction core of `ez_aws` (`src/ez_aws/so7z.py`).

The development shallowly embeds the classes `SmartOpen7z`, `SmartOpen7zStream`
and `ChecksumIncorrectError` of `so7z.py`.  Bytes are modelled as natural
numbers, byte strings as `List Nat`, Python floats as rationals, and Python's
implicit `return None` / raised exceptions as explicit constructors.  The
external collaborators (the `py7zr` decompressor, `smart_open` byte sources)
are modelled at their interface boundary: the stateful block decoder is a
parameter that, given its state and the requested count, yields the decoded
chunk and its next state, and `py7zr.helpers.calculate_crc32` (a chunked
wrapper around zlib's CRC-32) is implemented bit by bit below.
-/

namespace So7z

/-! ## CRC-32 (models `py7zr.helpers.calculate_crc32`, i.e. chained `zlib.crc32`) -/

/-- The reflected CRC-32 polynomial used by zlib. -/
def crc32Poly : Nat := 0xEDB88320

/-- One bit step of the reflected CRC-32: shift right, conditionally xor the polynomial. -/
def crc32Step (c : Nat) : Nat :=
  if c % 2 = 1 then (c / 2) ^^^ crc32Poly else c / 2

/-- Folding one input byte into the CRC-32 accumulator: xor the byte in, then
eight bit steps. -/
def crc32Byte (c b : Nat) : Nat :=
  crc32Step^[8] (c ^^^ (b % 256))

/-- `py7zr.helpers.calculate_crc32(data, value)`: zlib's CRC-32 of `data`
chained onto the running value `value`, masked to 32 bits (zlib applies
`& 0xFFFFFFFF`, which equals `% 2 ^ 32`).  zlib xors the running value with
`0xFFFFFFFF` before and after folding the data bytes. -/
def calculate_crc32 (data : List Nat) (value : Nat) : Nat :=
  ((data.foldl crc32Byte (value ^^^ 0xFFFFFFFF)) ^^^ 0xFFFFFFFF) % 2 ^ 32

/-! ## Data model

`py7zr` hands `so7z.py` an archive handle whose relevant parts are: the list
of `ArchiveFile` records (`self.files`, each with `filename`, `uncompressed`,
`crc32` and a back-reference `folder`), the folder list and pack positions of
`worker.header.main_streams` and the payload start `worker.src_start`.
Folder members are compared by `filename` throughout `so7z.py`, so folder
entries are modelled by the fields the code reads: `filename`,
`uncompressed` and `emptystream`. -/

/-- A member of a folder's `files` list, with the fields
`move_fp_to_correct_spot` and `worker._check` read. -/
structure FileEntry where
  filename : String
  uncompressed : Nat
  emptystream : Bool
deriving DecidableEq

/-- One solid-compressed folder: the ordered list of files packed in it. -/
structure FolderRec where
  files : List FileEntry
deriving DecidableEq

/-- An entry of `SmartOpen7z.files`: name, uncompressed length, stored CRC-32
and the back-reference to its recorded folder (`archiveFile.folder`). -/
structure ArchiveFile where
  filename : String
  uncompressed : Nat
  crc32 : Nat
  folder : FolderRec
deriving DecidableEq

/-- The archive handle state that `SmartOpen7zStream` reads: `self.files`,
`worker.header.main_streams.unpackinfo.folders`,
`worker.header.main_streams.packinfo.packpositions` and `worker.src_start`.
After `SmartOpen7z.__init__` the byte source sits at `src_start`
(`self.fp.seek(self.afterheader)`). -/
structure SmartOpen7z where
  files : List ArchiveFile
  folders : List FolderRec
  packpositions : List Nat
  src_start : Nat
deriving DecidableEq

/-- The Python runtime errors the stream-construction paths can raise:
`attributeError` models `AttributeError: 'NoneType' object has no attribute
'uncompressed'` (lookup miss in `get_archive_file`), `nameError` models the
unbound local `folder_position` in `move_fp_to_correct_spot`. -/
inductive PyError where
  | attributeError
  | nameError
deriving DecidableEq

/-! ## Lookup and positioning -/

/-- `SmartOpen7zStream.get_archive_file`: first entry of `self.files` whose
`filename` matches, and Python's implicit `None` (here `none`) otherwise. -/
def get_archive_file (z : SmartOpen7z) (name : String) : Option ArchiveFile :=
  z.files.find? (fun f => decide (f.filename = name))

/-- The first loop of `move_fp_to_correct_spot`: for `i in range(numfolders)`,
every folder member whose `filename` matches the target overwrites
`folder_position` with `packpositions[i]`; the variable starts unbound
(`none`). -/
def folder_position_loop (folders : List FolderRec) (positions : List Nat)
    (target : String) : Option Nat :=
  (List.range folders.length).foldl
    (fun acc i =>
      if (folders.getD i ⟨[]⟩).files.any (fun f => decide (f.filename = target)) then
        some (positions.getD i 0)
      else acc)
    none

/-- One iteration of the second loop of `move_fp_to_correct_spot` over
`folder.files`.  The accumulator is `(already checked, just_check)`: on a
filename match `worker._check(fp, just_check, src_end)` skip-decodes the
accumulated list (recorded by appending it to the first component) and
`just_check` is reset; a non-empty non-matching file is appended to
`just_check`; an `emptystream` file is passed over. -/
def check_step (target : String) (acc : List FileEntry × List FileEntry)
    (f : FileEntry) : List FileEntry × List FileEntry :=
  if f.filename = target then (acc.1 ++ acc.2, [])
  else if f.emptystream = false then (acc.1, acc.2 ++ [f])
  else acc

/-- The files handed to `worker._check` (in call order, flattened) by the
second loop of `move_fp_to_correct_spot`: exactly these get skip-decoded. -/
def check_loop (target : String) (fs : List FileEntry) : List FileEntry :=
  (fs.foldl (check_step target) ([], [])).1

/-- `SmartOpen7zStream.move_fp_to_correct_spot`.  Returns the absolute offset
passed to `self.fp.seek` (`worker.src_start + folder_position`) and the list
of folder members skip-decoded via `worker._check`.  If no folder contains the
target's filename, line `src_start = worker.src_start + folder_position`
raises an unbound-local `NameError`.  (`src_end` is computed from
`packpositions[-1]` and passed to the external `_check`; it plays no further
role.) -/
def move_fp_to_correct_spot (z : SmartOpen7z) (af : ArchiveFile) :
    Except PyError (Nat × List FileEntry) :=
  match folder_position_loop z.folders z.packpositions af.filename with
  | none => .error .nameError
  | some folder_position =>
      .ok (z.src_start + folder_position, check_loop af.filename af.folder.files)

/-! ## The entry stream -/

/-- The mutable state of a `SmartOpen7zStream`: the target entry, the running
checksum `self.crc32`, `self.pct_complete` (a Python float, modelled as a
rational), `self.out_remaining`, the byte-source position and whether
`get_decompressor` has been invoked. -/
structure StreamState where
  archiveFile : ArchiveFile
  crc32 : Nat
  pct_complete : ℚ
  out_remaining : Nat
  fpPos : Nat
  decompressorLoaded : Bool
deriving DecidableEq

/-- The outcome of one `__next__` call: a returned chunk of bytes, Python's
implicit `return None`, a raised `StopIteration`, or a raised
`ChecksumIncorrectError` carrying the file name, the stored (correct)
checksum and the calculated checksum — the fields `ChecksumIncorrectError`
stores and prints. -/
inductive NextResult where
  | chunk (b : List Nat)
  | pyNone
  | stopIteration
  | checksumIncorrect (filename : String) (correct : Nat) (calculated : Nat)
deriving DecidableEq

/-- The time projections printed by the progress block of `__next__` when
`pct_complete > 0`: `(projected total time, projected remaining time)` with
`total = elapsed / pct` and `remaining = total - elapsed`; omitted (`none`)
otherwise. -/
def progress_report (pct elapsed : ℚ) : Option (ℚ × ℚ) :=
  if 0 < pct then some (elapsed / pct, elapsed / pct - elapsed)
  else none

/-- `SmartOpen7zStream.__next__`.  `decoded` is the chunk the external
decompressor returns for this pull (`self.decompressor.decompress(self.fp,
self.out_remaining)`); `elapsed` is the wall-clock time since `__iter__`.
Returns the call's outcome, the successor state and the progress projections
(the only effect of `report_progress`, which otherwise just prints). -/
def next_ (s : StreamState) (report_progress : Bool) (elapsed : ℚ)
    (decoded : List Nat) : NextResult × StreamState × Option (ℚ × ℚ) :=
  if 0 < s.out_remaining then
    let pct : ℚ := 1 - (s.out_remaining : ℚ) / (s.archiveFile.uncompressed : ℚ)
    let s1 : StreamState := { s with pct_complete := pct }
    let report : Option (ℚ × ℚ) :=
      if report_progress then progress_report pct elapsed else none
    if 0 < decoded.length then
      (.chunk decoded,
       { s1 with
          out_remaining := s1.out_remaining - decoded.length,
          crc32 := calculate_crc32 decoded s1.crc32 },
       report)
    else
      (.pyNone, s1, report)
  else if s.archiveFile.uncompressed = 0 then
    (.stopIteration, s, none)
  else if s.crc32 ≠ s.archiveFile.crc32 then
    (.checksumIncorrect s.archiveFile.filename s.archiveFile.crc32 s.crc32, s, none)
  else
    (.stopIteration, s, none)

/-- `SmartOpen7zStream.__init__` for an already-open archive handle `z`.
Besides the constructed state (or the Python error), the second component
records the offsets explicitly passed to `self.fp.seek` — empty exactly when
no positioning seek was performed.  A `None` lookup result makes the
subsequent `self.archiveFile.uncompressed` raise `AttributeError`; a file of
size 0 skips positioning and decompressor construction entirely. -/
def initStream (z : SmartOpen7z) (archive_file_name : String) :
    Except PyError StreamState × List Nat :=
  match get_archive_file z archive_file_name with
  | none => (.error .attributeError, [])
  | some af =>
      let s0 : StreamState :=
        { archiveFile := af, crc32 := 0, pct_complete := 0,
          out_remaining := af.uncompressed, fpPos := z.src_start,
          decompressorLoaded := false }
      if 0 < s0.out_remaining then
        match move_fp_to_correct_spot z af with
        | .error e => (.error e, [])
        | .ok (pos, _checked) =>
            (.ok { s0 with fpPos := pos, decompressorLoaded := true }, [pos])
      else
        (.ok s0, [])

/-- `SmartOpen7z.get_stream`: constructs a fresh one-shot stream. -/
def get_stream (z : SmartOpen7z) (archive_file_name : String) :
    Except PyError StreamState × List Nat :=
  initStream z archive_file_name

/-- `SmartOpen7zStream.set_start_pct`: the method body only prints the current
byte-source position, the compressed size and `out_remaining`; it modifies
nothing. -/
def set_start_pct (s : StreamState) (start_pct : ℚ) : StreamState := s

/-- `SmartOpen7z.get_stream_portion`: instantiates a new stream via
`get_stream` and calls `set_start_pct` on it. -/
def get_stream_portion (z : SmartOpen7z) (archive_file_name : String)
    (start_pct : ℚ) : Except PyError StreamState × List Nat :=
  let stream := get_stream z archive_file_name
  (stream.1.map (fun s => set_start_pct s start_pct), stream.2)

/-- The `for chunk in stream` pull loop: repeatedly call `__next__`, feeding
it whatever the external stateful decoder produces for the current state
(`dec st n` returns the decoded chunk for a request of `n` bytes together
with the decoder's next state), until a pull does not return a chunk.
Yields the list of chunks surfaced to the consumer, the final stream state
and the terminating outcome. -/
def runStream {σ : Type} (dec : σ → Nat → List Nat × σ) (s : StreamState)
    (st : σ) : List (List Nat) × StreamState × NextResult :=
  match h : (next_ s false 0 (dec st s.out_remaining).1).1 with
  | NextResult.chunk b =>
      let t := runStream dec (next_ s false 0 (dec st s.out_remaining).1).2.1
        (dec st s.out_remaining).2
      (b :: t.1, t.2.1, t.2.2)
  | NextResult.pyNone =>
      ([], (next_ s false 0 (dec st s.out_remaining).1).2.1, NextResult.pyNone)
  | NextResult.stopIteration =>
      ([], (next_ s false 0 (dec st s.out_remaining).1).2.1, NextResult.stopIteration)
  | NextResult.checksumIncorrect a c k =>
      ([], (next_ s false 0 (dec st s.out_remaining).1).2.1,
       NextResult.checksumIncorrect a c k)
termination_by s.out_remaining
decreasing_by
  unfold next_ at h ⊢
  by_cases h0 : 0 < s.out_remaining
  · by_cases hd : 0 < (dec st s.out_remaining).1.length
    · simp only [h0, hd, if_true] at h ⊢
      exact Nat.sub_lt h0 hd
    · simp [h0, hd] at h
  · rw [if_neg h0] at h
    rcases Decidable.em (s.archiveFile.uncompressed = 0) with hu | hu
    · rw [if_pos hu] at h
      simp at h
    · rw [if_neg hu] at h
      rcases Decidable.em (s.crc32 ≠ s.archiveFile.crc32) with hc | hc
      · rw [if_pos hc] at h
        simp at h
      · rw [if_neg hc] at h
        simp at h

/-- The decoder interface instantiated with a fixed list of chunks: each call
consumes the head (an exhausted list yields the empty chunk, as a drained
zlib stream does). -/
def listDec : List (List Nat) → Nat → List Nat × List (List Nat) :=
  fun st _ => (st.headD [], st.tail)

/-- `SmartOpen7z.decompress_file`: open a fresh stream for the named entry
and write every chunk the pull loop produces, in order, to the output sink.
Returns the chunks written and the loop's terminating outcome (a raised
`ChecksumIncorrectError` propagates after the writes). `cs` is the sequence
of chunks the external decompressor produces for this extraction. -/
def decompress_file (z : SmartOpen7z) (archive_file_name : String)
    (cs : List (List Nat)) :
    Except PyError (List (List Nat) × NextResult) :=
  match (initStream z archive_file_name).1 with
  | .error e => .error e
  | .ok s => .ok ((runStream listDec s cs).1, (runStream listDec s cs).2.2)

/-- `SmartOpen7z.decompress_all`: iterate `self.files` in catalog order,
`continue` past entries with `uncompressed == 0`, and run `decompress_file`
for the rest, writing to `out_folder_url + "/" + filename`.  The result pairs
each sink URL with what was written there; `oracle` gives the decoder's chunk
sequence for each extracted name. -/
def decompress_all (z : SmartOpen7z) (out_folder_url : String)
    (oracle : String → List (List Nat)) :
    List (String × Except PyError (List (List Nat) × NextResult)) :=
  z.files.foldl
    (fun acc file =>
      if file.uncompressed = 0 then acc
      else acc ++ [(out_folder_url ++ "/" ++ file.filename,
                    decompress_file z file.filename (oracle file.filename))])
    []

/-! ## Concrete example archives -/

/-- Folder member: `a.txt`, 10 bytes. -/
def entryA : FileEntry := { filename := "a.txt", uncompressed := 10, emptystream := false }

/-- Folder member: `b.txt`, 20 bytes. -/
def entryB : FileEntry := { filename := "b.txt", uncompressed := 20, emptystream := false }

/-- Folder member: `y.txt`, empty (0 bytes). -/
def entryY : FileEntry := { filename := "y.txt", uncompressed := 0, emptystream := true }

/-- Folder member: `c.txt`, 40 bytes. -/
def entryC : FileEntry := { filename := "c.txt", uncompressed := 40, emptystream := false }

/-- A solid folder holding `a.txt`, `b.txt`, `y.txt`, `c.txt` in that order. -/
def folderDemo : FolderRec := { files := [entryA, entryB, entryY, entryC] }

/-- Catalog entry for `a.txt`. -/
def fileA : ArchiveFile :=
  { filename := "a.txt", uncompressed := 10, crc32 := 111, folder := folderDemo }

/-- Catalog entry for `b.txt`. -/
def fileB : ArchiveFile :=
  { filename := "b.txt", uncompressed := 20, crc32 := 222, folder := folderDemo }

/-- Catalog entry for the empty `y.txt`. -/
def fileY : ArchiveFile :=
  { filename := "y.txt", uncompressed := 0, crc32 := 0, folder := folderDemo }

/-- Catalog entry for `c.txt`. -/
def fileC : ArchiveFile :=
  { filename := "c.txt", uncompressed := 40, crc32 := 333, folder := folderDemo }

/-- A consistent single-folder demo archive. -/
def zDemo : SmartOpen7z :=
  { files := [fileA, fileB, fileY, fileC], folders := [folderDemo],
    packpositions := [0, 500], src_start := 32 }

/-- A catalog entry whose recorded folder (and every folder of the archive)
lacks its filename: an inconsistent catalog. -/
def fileGhost : ArchiveFile :=
  { filename := "ghost.txt", uncompressed := 5, crc32 := 0, folder := folderDemo }

/-- An inconsistent archive: `ghost.txt` is catalogued but appears in no
folder's file list. -/
def zBad : SmartOpen7z :=
  { files := [fileGhost], folders := [folderDemo],
    packpositions := [0, 500], src_start := 32 }

/-- Folder member `w.bin`, 2 bytes. -/
def entryW : FileEntry := { filename := "w.bin", uncompressed := 2, emptystream := false }

/-- Single-member folder for `w.bin`. -/
def folderW : FolderRec := { files := [entryW] }

/-- Catalog entry for `w.bin`; its stored checksum is the CRC-32 of its true
content `[7, 7]`. -/
def fileW : ArchiveFile :=
  { filename := "w.bin", uncompressed := 2, crc32 := calculate_crc32 [7, 7] 0,
    folder := folderW }

/-- A consistent one-file archive for streaming `w.bin`. -/
def zW : SmartOpen7z :=
  { files := [fileW], folders := [folderW], packpositions := [0, 100], src_start := 32 }

/-- The stream state `initStream zW "w.bin"` constructs. -/
def sW : StreamState :=
  { archiveFile := fileW, crc32 := 0, pct_complete := 0, out_remaining := 2,
    fpPos := 32, decompressorLoaded := true }

/-- A decoder that answers every request with the single byte `7`. -/
def constDec : Unit → Nat → List Nat × Unit := fun _ _ => ([7], ())

/-- A zero-length catalog entry for the whole-archive extraction example. -/
def fileZ0 : ArchiveFile :=
  { filename := "z0.bin", uncompressed := 0, crc32 := 0, folder := folderW }

/-- Archive with one extractable file and one zero-length file. -/
def zAll : SmartOpen7z :=
  { files := [fileW, fileZ0], folders := [folderW], packpositions := [0, 100],
    src_start := 32 }

/-- Chunk oracle for `zAll`: `w.bin` decodes as `[7], [7]`. -/
def oracleW : String → List (List Nat) := fun name =>
  if name = "w.bin" then [[7], [7]] else []

/-- A drained stream state for `c.txt` whose accumulated checksum matches. -/
def sC1 : StreamState :=
  { archiveFile := fileC, crc32 := 333, pct_complete := 0, out_remaining := 0,
    fpPos := 0, decompressorLoaded := true }

/-- A half-streamed state for `c.txt`: 20 of 40 bytes remain. -/
def sC8 : StreamState :=
  { archiveFile := fileC, crc32 := 0, pct_complete := 0, out_remaining := 20,
    fpPos := 0, decompressorLoaded := true }

/-! ## CRC-32 lemmas -/

theorem crc32Step_lt {c : Nat} (h : c < 2 ^ 32) : crc32Step c < 2 ^ 32 := by
  unfold crc32Step
  have hdiv : c / 2 < 2 ^ 32 := Nat.lt_of_le_of_lt (Nat.div_le_self c 2) h
  split
  · exact Nat.xor_lt_two_pow hdiv (by norm_num [crc32Poly])
  · exact hdiv

theorem crc32Step_iter_lt (n : Nat) {c : Nat} (h : c < 2 ^ 32) :
    crc32Step^[n] c < 2 ^ 32 := by
  induction n generalizing c with
  | zero => simpa using h
  | succ k ih =>
      rw [Function.iterate_succ_apply]
      exact ih (crc32Step_lt h)

theorem crc32Byte_lt {c : Nat} (b : Nat) (h : c < 2 ^ 32) : crc32Byte c b < 2 ^ 32 := by
  unfold crc32Byte
  refine crc32Step_iter_lt 8 (Nat.xor_lt_two_pow h ?_)
  calc b % 256 < 256 := Nat.mod_lt _ (by norm_num)
    _ < 2 ^ 32 := by norm_num

theorem crc32_foldl_lt {v : Nat} (data : List Nat) (h : v < 2 ^ 32) :
    data.foldl crc32Byte v < 2 ^ 32 := by
  induction data generalizing v with
  | nil => simpa using h
  | cons b bs ih => exact ih (crc32Byte_lt b h)

theorem calculate_crc32_lt (data : List Nat) (v : Nat) :
    calculate_crc32 data v < 2 ^ 32 :=
  Nat.mod_lt _ (by norm_num)

/-- Chaining: feeding `a` and then `b` into the running CRC equals feeding
`a ++ b` at once, for any 32-bit running value. -/
theorem calculate_crc32_append {v : Nat} (a b : List Nat) (hv : v < 2 ^ 32) :
    calculate_crc32 b (calculate_crc32 a v) = calculate_crc32 (a ++ b) v := by
  have hM : (0xFFFFFFFF : Nat) < 2 ^ 32 := by norm_num
  have hstart : v ^^^ 0xFFFFFFFF < 2 ^ 32 := Nat.xor_lt_two_pow hv hM
  have hF : a.foldl crc32Byte (v ^^^ 0xFFFFFFFF) < 2 ^ 32 :=
    crc32_foldl_lt a hstart
  have hFx : (a.foldl crc32Byte (v ^^^ 0xFFFFFFFF)) ^^^ 0xFFFFFFFF < 2 ^ 32 :=
    Nat.xor_lt_two_pow hF hM
  unfold calculate_crc32
  rw [Nat.mod_eq_of_lt hFx, Nat.xor_cancel_right, List.foldl_append]

/-- Folding a list of chunks one at a time through `calculate_crc32` equals a
single `calculate_crc32` over the concatenation. -/
theorem calculate_crc32_join {v : Nat} (cs : List (List Nat)) (hv : v < 2 ^ 32) :
    List.foldl (fun k c => calculate_crc32 c k) v cs = calculate_crc32 cs.flatten v := by
  induction cs generalizing v with
  | nil =>
      simp only [List.foldl_nil, List.flatten_nil]
      unfold calculate_crc32
      rw [List.foldl_nil, Nat.xor_cancel_right, Nat.mod_eq_of_lt hv]
  | cons c cs ih =>
      simp only [List.foldl_cons, List.flatten_cons]
      rw [ih (calculate_crc32_lt c v), calculate_crc32_append c cs.flatten hv]

/-! ## Lemmas about the positioning loops -/

theorem posfold_no_match (p : Nat → Bool) (q : Nat → Nat) (l : List Nat)
    (acc : Option Nat) (h : ∀ j ∈ l, p j = false) :
    l.foldl (fun a j => if p j then some (q j) else a) acc = acc := by
  induction l generalizing acc with
  | nil => rfl
  | cons j l ih =>
      rw [List.foldl_cons, if_neg]
      · exact ih acc (fun k hk => h k (List.mem_cons_of_mem j hk))
      · simp [h j (List.mem_cons_self j l)]

theorem posfold_keep (p : Nat → Bool) (q : Nat → Nat) (i : Nat) (l : List Nat)
    (h : ∀ j ∈ l, j = i ∨ p j = false) :
    l.foldl (fun a j => if p j then some (q j) else a) (some (q i)) = some (q i) := by
  induction l with
  | nil => rfl
  | cons j l ih =>
      rw [List.foldl_cons]
      have hj := h j (List.mem_cons_self j l)
      have htail : ∀ k ∈ l, k = i ∨ p k = false :=
        fun k hk => h k (List.mem_cons_of_mem j hk)
      rcases hj with rfl | hfalse
      · rcases Decidable.em (p j = true) with hp | hp
        · rw [if_pos hp]
          exact ih htail
        · rw [if_neg (by simpa using hp)]
          exact ih htail
      · rw [if_neg (by simp [hfalse])]
        exact ih htail

theorem posfold_unique (p : Nat → Bool) (q : Nat → Nat) (i : Nat) (l : List Nat)
    (acc : Option Nat) (hmem : i ∈ l) (hp : p i = true)
    (honly : ∀ j ∈ l, j ≠ i → p j = false) :
    l.foldl (fun a j => if p j then some (q j) else a) acc = some (q i) := by
  induction l generalizing acc with
  | nil => cases hmem
  | cons j l ih =>
      rw [List.foldl_cons]
      rcases Decidable.em (j = i) with rfl | hne
      · rw [if_pos hp]
        exact posfold_keep p q j l
          (fun k hk => (Decidable.em (k = j)).imp id
            (fun h => honly k (List.mem_cons_of_mem j hk) h))
      · rw [if_neg (by simp [honly j (List.mem_cons_self j l) hne])]
        exact ih acc
          ((List.mem_cons.mp hmem).resolve_left (fun h => hne h.symm))
          (fun k hk hki => honly k (List.mem_cons_of_mem j hk) hki)

theorem posfold_isSome_of_acc (p : Nat → Bool) (q : Nat → Nat) (l : List Nat) :
    ∀ acc : Option Nat, acc.isSome = true →
    (l.foldl (fun a j => if p j then some (q j) else a) acc).isSome = true := by
  induction l with
  | nil => exact fun acc h => h
  | cons j l ih =>
      intro acc h
      rw [List.foldl_cons]
      rcases Decidable.em (p j = true) with hp | hp
      · rw [if_pos hp]
        exact ih _ rfl
      · rw [if_neg (by simpa using hp)]
        exact ih _ h

theorem posfold_isSome (p : Nat → Bool) (q : Nat → Nat) (l : List Nat)
    (acc : Option Nat) (h : ∃ j ∈ l, p j = true) :
    (l.foldl (fun a j => if p j then some (q j) else a) acc).isSome = true := by
  induction l generalizing acc with
  | nil => simp at h
  | cons j l ih =>
      rw [List.foldl_cons]
      rcases Decidable.em (∃ k ∈ l, p k = true) with htail | htail
      · exact ih _ htail
      · obtain ⟨k, hk, hpk⟩ := h
        have hkj : k = j := by
          rcases List.mem_cons.mp hk with rfl | hkl
          · rfl
          · exact absurd ⟨k, hkl, hpk⟩ htail
        subst hkj
        rw [if_pos hpk]
        exact posfold_isSome_of_acc p q l _ rfl

/-- If no folder of the unpack info contains the target filename, the first
loop never assigns `folder_position`. -/
theorem folder_position_loop_none (folders : List FolderRec) (positions : List Nat)
    (target : String)
    (h : ∀ folder ∈ folders, ∀ g ∈ folder.files, g.filename ≠ target) :
    folder_position_loop folders positions target = none := by
  unfold folder_position_loop
  refine posfold_no_match _ _ _ _ (fun j hj => ?_)
  have hjlt : j < folders.length := List.mem_range.mp hj
  have hmem : folders.getD j ⟨[]⟩ ∈ folders := by
    rw [List.getD_eq_getElem folders ⟨[]⟩ hjlt]
    exact List.getElem_mem hjlt
  rw [List.any_eq_false]
  intro g hg
  simpa using h _ hmem g hg

/-- If folder `i` contains the target filename and no other folder does, the
first loop leaves `folder_position = packpositions[i]`. -/
theorem folder_position_loop_unique (folders : List FolderRec) (positions : List Nat)
    (target : String) (i : Nat) (hi : i < folders.length)
    (hmatch : ∃ g ∈ (folders.getD i ⟨[]⟩).files, g.filename = target)
    (honly : ∀ j, j < folders.length → j ≠ i →
      ∀ g ∈ (folders.getD j ⟨[]⟩).files, g.filename ≠ target) :
    folder_position_loop folders positions target = some (positions.getD i 0) := by
  unfold folder_position_loop
  refine posfold_unique _ _ i _ none (List.mem_range.mpr hi) ?_ ?_
  · obtain ⟨g, hg, hgname⟩ := hmatch
    simp only [List.any_eq_true, decide_eq_true_eq]
    exact ⟨g, hg, hgname⟩
  · intro j hj hji
    have hjlt : j < folders.length := List.mem_range.mp hj
    rw [List.any_eq_false]
    intro g hg
    simpa using honly j hjlt hji g hg

/-- If some folder contains the target filename, the first loop assigns
`folder_position`. -/
theorem folder_position_loop_isSome (folders : List FolderRec) (positions : List Nat)
    (target : String)
    (h : ∃ folder ∈ folders, ∃ g ∈ folder.files, g.filename = target) :
    (folder_position_loop folders positions target).isSome = true := by
  unfold folder_position_loop
  obtain ⟨folder, hfolder, g, hg, hgname⟩ := h
  obtain ⟨i, hi, rfl⟩ := List.mem_iff_getElem.mp hfolder
  refine posfold_isSome _ _ _ _ ⟨i, List.mem_range.mpr hi, ?_⟩
  rw [List.getD_eq_getElem folders ⟨[]⟩ hi]
  simp only [List.any_eq_true, decide_eq_true_eq]
  exact ⟨g, hg, hgname⟩

/-! ## Lemmas about the skip-decode walk -/

theorem check_step_no_match (target : String) (fs : List FileEntry)
    (acc : List FileEntry × List FileEntry)
    (h : ∀ g ∈ fs, g.filename ≠ target) :
    fs.foldl (check_step target) acc =
      (acc.1, acc.2 ++ fs.filter (fun g => g.emptystream = false)) := by
  induction fs generalizing acc with
  | nil => simp
  | cons f fs ih =>
      rw [List.foldl_cons]
      have hf : f.filename ≠ target := h f (List.mem_cons_self f fs)
      have htail : ∀ g ∈ fs, g.filename ≠ target :=
        fun g hg => h g (List.mem_cons_of_mem f hg)
      rcases Decidable.em (f.emptystream = false) with he | he
      · have hstep : check_step target acc f = (acc.1, acc.2 ++ [f]) := by
          unfold check_step
          rw [if_neg hf, if_pos he]
        rw [hstep, ih _ htail]
        simp [List.filter_cons, he]
      · have hft : f.emptystream = true := by
          cases hb : f.emptystream
          · exact absurd hb he
          · rfl
        have hstep : check_step target acc f = acc := by
          unfold check_step
          rw [if_neg hf, if_neg he]
        rw [hstep, ih _ htail]
        simp [List.filter_cons, hft]

theorem check_step_match (target : String) (acc : List FileEntry × List FileEntry)
    (t : FileEntry) (ht : t.filename = target) :
    check_step target acc t = (acc.1 ++ acc.2, []) := by
  unfold check_step
  rw [if_pos ht]

/-- The walk over `pre ++ target :: post` (no other occurrence of the target
name) hands `worker._check` exactly the non-`emptystream` members of `pre`:
those files, and only those, get skip-decoded; none of the target's bytes
are decoded. -/
theorem check_loop_eq (target : String) (pre post : List FileEntry)
    (t : FileEntry) (ht : t.filename = target)
    (hpre : ∀ g ∈ pre, g.filename ≠ target)
    (hpost : ∀ g ∈ post, g.filename ≠ target) :
    check_loop target (pre ++ t :: post) =
      pre.filter (fun g => g.emptystream = false) := by
  unfold check_loop
  rw [List.foldl_append, check_step_no_match target pre ([], []) hpre,
    List.foldl_cons, check_step_match target _ t ht,
    check_step_no_match target post _ hpost]
  simp

/-! ## Step lemmas for the pull loop -/

/-- With `out_remaining == 0`, `__next__` leaves the state untouched, prints
no projections, and terminates with `StopIteration` or
`ChecksumIncorrectError` according to the zero-size check and the checksum
comparison. -/
theorem next_terminal (s : StreamState) (rp : Bool) (e : ℚ) (d : List Nat)
    (h0 : s.out_remaining = 0) :
    next_ s rp e d =
      ((if s.archiveFile.uncompressed = 0 then NextResult.stopIteration
        else if s.crc32 ≠ s.archiveFile.crc32 then
          NextResult.checksumIncorrect s.archiveFile.filename s.archiveFile.crc32 s.crc32
        else NextResult.stopIteration), s, none) := by
  unfold next_
  rw [if_neg (by simp [h0])]
  rcases Decidable.em (s.archiveFile.uncompressed = 0) with hu | hu
  · rw [if_pos hu, if_pos hu]
  · rw [if_neg hu, if_neg hu]
    rcases Decidable.em (s.crc32 ≠ s.archiveFile.crc32) with hc | hc
    · rw [if_pos hc, if_pos hc]
    · rw [if_neg hc, if_neg hc]

/-- With `out_remaining > 0` and a non-empty decoded chunk, `__next__`
returns the chunk, subtracts its length from `out_remaining`, folds it into
the checksum and records the completion percentage. -/
theorem next_chunk_eq (s : StreamState) (rp : Bool) (e : ℚ) (d : List Nat)
    (h0 : 0 < s.out_remaining) (hd : d ≠ []) :
    next_ s rp e d =
      (NextResult.chunk d,
       { s with
           pct_complete := 1 - (s.out_remaining : ℚ) / (s.archiveFile.uncompressed : ℚ),
           out_remaining := s.out_remaining - d.length,
           crc32 := calculate_crc32 d s.crc32 },
       if rp then
         progress_report (1 - (s.out_remaining : ℚ) / (s.archiveFile.uncompressed : ℚ)) e
       else none) := by
  unfold next_
  rw [if_pos h0, if_pos (List.length_pos.mpr hd)]

theorem runStream_of_chunk {σ : Type} (dec : σ → Nat → List Nat × σ)
    (s : StreamState) (st : σ) (b : List Nat)
    (h : (next_ s false 0 (dec st s.out_remaining).1).1 = NextResult.chunk b) :
    runStream dec s st =
      (b :: (runStream dec (next_ s false 0 (dec st s.out_remaining).1).2.1
              (dec st s.out_remaining).2).1,
       (runStream dec (next_ s false 0 (dec st s.out_remaining).1).2.1
          (dec st s.out_remaining).2).2.1,
       (runStream dec (next_ s false 0 (dec st s.out_remaining).1).2.1
          (dec st s.out_remaining).2).2.2) := by
  conv_lhs => rw [runStream.eq_def]
  split <;> rename_i heq <;> rw [h] at heq <;> cases heq <;> rfl

theorem runStream_of_stop {σ : Type} (dec : σ → Nat → List Nat × σ)
    (s : StreamState) (st : σ)
    (h : (next_ s false 0 (dec st s.out_remaining).1).1 = NextResult.stopIteration) :
    runStream dec s st =
      ([], (next_ s false 0 (dec st s.out_remaining).1).2.1,
       NextResult.stopIteration) := by
  conv_lhs => rw [runStream.eq_def]
  split <;> rename_i heq <;> rw [h] at heq <;> cases heq <;> rfl

theorem runStream_of_checksum {σ : Type} (dec : σ → Nat → List Nat × σ)
    (s : StreamState) (st : σ) (a : String) (c k : Nat)
    (h : (next_ s false 0 (dec st s.out_remaining).1).1 =
      NextResult.checksumIncorrect a c k) :
    runStream dec s st =
      ([], (next_ s false 0 (dec st s.out_remaining).1).2.1,
       NextResult.checksumIncorrect a c k) := by
  conv_lhs => rw [runStream.eq_def]
  split <;> rename_i heq <;> rw [h] at heq <;> cases heq <;> rfl

/-- With `out_remaining == 0` the pull loop stops at once: nothing is
emitted, the state is unchanged, and the outcome is the terminal `__next__`
result. -/
theorem runStream_terminal {σ : Type} (dec : σ → Nat → List Nat × σ)
    (s : StreamState) (st : σ) (h0 : s.out_remaining = 0) :
    runStream dec s st =
      ([], s,
       if s.archiveFile.uncompressed = 0 then NextResult.stopIteration
       else if s.crc32 ≠ s.archiveFile.crc32 then
         NextResult.checksumIncorrect s.archiveFile.filename s.archiveFile.crc32 s.crc32
       else NextResult.stopIteration) := by
  have hterm := next_terminal s false 0 ((dec st s.out_remaining).1) h0
  have hstate : (next_ s false 0 (dec st s.out_remaining).1).2.1 = s := by
    rw [hterm]
  rcases Decidable.em (s.archiveFile.uncompressed = 0) with hu | hu
  · have h1 : (next_ s false 0 (dec st s.out_remaining).1).1 =
        NextResult.stopIteration := by
      rw [hterm]
      simp [hu]
    rw [runStream_of_stop dec s st h1, hstate, if_pos hu]
  · rcases Decidable.em (s.crc32 ≠ s.archiveFile.crc32) with hc | hc
    · have h1 : (next_ s false 0 (dec st s.out_remaining).1).1 =
          NextResult.checksumIncorrect s.archiveFile.filename s.archiveFile.crc32
            s.crc32 := by
        rw [hterm]
        simp [hu, hc]
      rw [runStream_of_checksum dec s st _ _ _ h1, hstate, if_neg hu, if_pos hc]
    · have h1 : (next_ s false 0 (dec st s.out_remaining).1).1 =
          NextResult.stopIteration := by
        rw [hterm]
        simp [hu, hc]
      rw [runStream_of_stop dec s st h1, hstate, if_neg hu, if_neg hc]

/-- With `out_remaining > 0` and a non-empty decoded chunk, the pull loop
emits the chunk and continues from the updated stream state and decoder
state. -/
theorem runStream_chunk {σ : Type} (dec : σ → Nat → List Nat × σ)
    (s : StreamState) (st : σ) (h0 : 0 < s.out_remaining)
    (hd : (dec st s.out_remaining).1 ≠ []) :
    runStream dec s st =
      ((dec st s.out_remaining).1 ::
        (runStream dec
          { s with
              pct_complete := 1 - (s.out_remaining : ℚ) / (s.archiveFile.uncompressed : ℚ),
              out_remaining := s.out_remaining - (dec st s.out_remaining).1.length,
              crc32 := calculate_crc32 (dec st s.out_remaining).1 s.crc32 }
          (dec st s.out_remaining).2).1,
       (runStream dec
          { s with
              pct_complete := 1 - (s.out_remaining : ℚ) / (s.archiveFile.uncompressed : ℚ),
              out_remaining := s.out_remaining - (dec st s.out_remaining).1.length,
              crc32 := calculate_crc32 (dec st s.out_remaining).1 s.crc32 }
          (dec st s.out_remaining).2).2.1,
       (runStream dec
          { s with
              pct_complete := 1 - (s.out_remaining : ℚ) / (s.archiveFile.uncompressed : ℚ),
              out_remaining := s.out_remaining - (dec st s.out_remaining).1.length,
              crc32 := calculate_crc32 (dec st s.out_remaining).1 s.crc32 }
          (dec st s.out_remaining).2).2.2) := by
  have hc := next_chunk_eq s false 0 ((dec st s.out_remaining).1) h0 hd
  have h1 : (next_ s false 0 (dec st s.out_remaining).1).1 =
      NextResult.chunk (dec st s.out_remaining).1 := by
    rw [hc]
  have hstate : (next_ s false 0 (dec st s.out_remaining).1).2.1 =
      { s with
          pct_complete := 1 - (s.out_remaining : ℚ) / (s.archiveFile.uncompressed : ℚ),
          out_remaining := s.out_remaining - (dec st s.out_remaining).1.length,
          crc32 := calculate_crc32 (dec st s.out_remaining).1 s.crc32 } := by
    rw [hc]
  rw [runStream_of_chunk dec s st _ h1, hstate]

/-! ## Complete runs of the pull loop -/

/-- A decoder that, for every positive request, yields a non-empty chunk of
at most the requested length drives the pull loop to emit exactly
`out_remaining` bytes in total, folding every chunk into the checksum, and
to finish with the terminal `__next__` outcome.  Strong induction on
`out_remaining`. -/
theorem runStream_total_aux {σ : Type} (dec : σ → Nat → List Nat × σ)
    (hdec : ∀ st n, 0 < n → (dec st n).1 ≠ [] ∧ (dec st n).1.length ≤ n) :
    ∀ (n : Nat) (s : StreamState) (st : σ), s.out_remaining = n →
      ((runStream dec s st).1.map List.length).sum = s.out_remaining ∧
      (runStream dec s st).2.1.crc32 =
        List.foldl (fun k c => calculate_crc32 c k) s.crc32 (runStream dec s st).1 ∧
      (runStream dec s st).2.1.out_remaining = 0 ∧
      (runStream dec s st).2.1.archiveFile = s.archiveFile ∧
      (runStream dec s st).2.2 =
        (if s.archiveFile.uncompressed = 0 then NextResult.stopIteration
         else if (runStream dec s st).2.1.crc32 ≠ s.archiveFile.crc32 then
           NextResult.checksumIncorrect s.archiveFile.filename s.archiveFile.crc32
             ((runStream dec s st).2.1.crc32)
         else NextResult.stopIteration) := by
  intro n
  induction n using Nat.strong_induction_on with
  | _ n ih =>
      intro s st hn
      rcases Nat.eq_zero_or_pos n with rfl | hpos
      · rw [runStream_terminal dec s st hn]
        refine ⟨by simpa using hn.symm, rfl, hn, rfl, rfl⟩
      · have h0 : 0 < s.out_remaining := hn ▸ hpos
        obtain ⟨hdne, hdle⟩ := hdec st s.out_remaining h0
        rw [runStream_chunk dec s st h0 hdne]
        have hlt : s.out_remaining - (dec st s.out_remaining).1.length < n := by
          have := List.length_pos.mpr hdne
          omega
        obtain ⟨hsum, hcrc, hrem, haf, hres⟩ :=
          ih (s.out_remaining - (dec st s.out_remaining).1.length) hlt
            { s with
                pct_complete :=
                  1 - (s.out_remaining : ℚ) / (s.archiveFile.uncompressed : ℚ),
                out_remaining := s.out_remaining - (dec st s.out_remaining).1.length,
                crc32 := calculate_crc32 (dec st s.out_remaining).1 s.crc32 }
            ((dec st s.out_remaining).2) rfl
        refine ⟨?_, ?_, hrem, haf, ?_⟩
        · simpa [hsum] using Nat.add_sub_cancel' hdle
        · simpa using hcrc
        · simpa using hres

/-- `runStream_total_aux` without the induction handle. -/
theorem runStream_total {σ : Type} (dec : σ → Nat → List Nat × σ)
    (hdec : ∀ st n, 0 < n → (dec st n).1 ≠ [] ∧ (dec st n).1.length ≤ n)
    (s : StreamState) (st : σ) :
    ((runStream dec s st).1.map List.length).sum = s.out_remaining ∧
    (runStream dec s st).2.1.crc32 =
      List.foldl (fun k c => calculate_crc32 c k) s.crc32 (runStream dec s st).1 ∧
    (runStream dec s st).2.1.out_remaining = 0 ∧
    (runStream dec s st).2.1.archiveFile = s.archiveFile ∧
    (runStream dec s st).2.2 =
      (if s.archiveFile.uncompressed = 0 then NextResult.stopIteration
       else if (runStream dec s st).2.1.crc32 ≠ s.archiveFile.crc32 then
         NextResult.checksumIncorrect s.archiveFile.filename s.archiveFile.crc32
           ((runStream dec s st).2.1.crc32)
       else NextResult.stopIteration) :=
  runStream_total_aux dec hdec s.out_remaining s st rfl

/-- Running the pull loop against the list decoder with non-empty chunks
totalling exactly `out_remaining` emits exactly those chunks, in order. -/
theorem runStream_listDec (cs : List (List Nat)) : ∀ s : StreamState,
    (∀ c ∈ cs, c ≠ []) →
    (cs.map List.length).sum = s.out_remaining →
    (runStream listDec s cs).1 = cs ∧
    (runStream listDec s cs).2.1.crc32 =
      List.foldl (fun k c => calculate_crc32 c k) s.crc32 cs ∧
    (runStream listDec s cs).2.2 =
      (if s.archiveFile.uncompressed = 0 then NextResult.stopIteration
       else if List.foldl (fun k c => calculate_crc32 c k) s.crc32 cs ≠
           s.archiveFile.crc32 then
         NextResult.checksumIncorrect s.archiveFile.filename s.archiveFile.crc32
           (List.foldl (fun k c => calculate_crc32 c k) s.crc32 cs)
       else NextResult.stopIteration) := by
  induction cs with
  | nil =>
      intro s hne hsum
      have h0 : s.out_remaining = 0 := by simpa using hsum.symm
      rw [runStream_terminal listDec s [] h0]
      exact ⟨rfl, rfl, rfl⟩
  | cons c cs ih =>
      intro s hne hsum
      have hc : c ≠ [] := hne c (List.mem_cons_self _ _)
      have hclen : 0 < c.length := List.length_pos.mpr hc
      have h0 : 0 < s.out_remaining := by
        rw [← hsum, List.map_cons, List.sum_cons]
        omega
      have hdecfst : (listDec (c :: cs) s.out_remaining).1 = c := rfl
      have hdecdne : (listDec (c :: cs) s.out_remaining).1 ≠ [] := hc
      rw [runStream_chunk listDec s (c :: cs) h0 hdecdne]
      have hrem : s.out_remaining - (listDec (c :: cs) s.out_remaining).1.length =
          (cs.map List.length).sum := by
        rw [hdecfst, ← hsum, List.map_cons, List.sum_cons]
        omega
      obtain ⟨h1, h2, h3⟩ :=
        ih { s with
              pct_complete :=
                1 - (s.out_remaining : ℚ) / (s.archiveFile.uncompressed : ℚ),
              out_remaining :=
                s.out_remaining - (listDec (c :: cs) s.out_remaining).1.length,
              crc32 := calculate_crc32 (listDec (c :: cs) s.out_remaining).1 s.crc32 }
          (fun g hg => hne g (List.mem_cons_of_mem c hg)) (by simpa using hrem.symm)
      refine ⟨?_, ?_, ?_⟩
      · rw [hdecfst] at h1 ⊢
        simpa using h1
      · rw [hdecfst] at h2 ⊢
        simpa using h2
      · rw [hdecfst] at h3 ⊢
        simpa using h3

/-! ## Lemmas about stream construction -/

theorem find?_filename (l : List ArchiveFile) (f : ArchiveFile)
    (hdist : l.Pairwise (fun a b => a.filename ≠ b.filename)) (hmem : f ∈ l) :
    l.find? (fun g => decide (g.filename = f.filename)) = some f := by
  induction l with
  | nil => cases hmem
  | cons a l ih =>
      rcases List.mem_cons.mp hmem with rfl | hfl
      · rw [List.find?_cons_of_pos _ (by simp)]
      · have ha : a.filename ≠ f.filename := (List.pairwise_cons.mp hdist).1 f hfl
        rw [List.find?_cons_of_neg _ (by simp [ha])]
        exact ih (List.pairwise_cons.mp hdist).2 hfl

/-- With pairwise-distinct filenames, `get_archive_file` returns the entry
itself. -/
theorem get_archive_file_of_mem (z : SmartOpen7z) (f : ArchiveFile)
    (hdist : z.files.Pairwise (fun a b => a.filename ≠ b.filename))
    (hmem : f ∈ z.files) :
    get_archive_file z f.filename = some f :=
  find?_filename z.files f hdist hmem

/-- Any successfully constructed stream starts with a zero checksum and with
`out_remaining` equal to the target's uncompressed length. -/
theorem initStream_ok_fields (z : SmartOpen7z) (name : String) (s : StreamState)
    (h : (initStream z name).1 = Except.ok s) :
    s.crc32 = 0 ∧ s.out_remaining = s.archiveFile.uncompressed := by
  unfold initStream at h
  cases hg : get_archive_file z name with
  | none =>
      rw [hg] at h
      simp at h
  | some af =>
      rw [hg] at h
      dsimp only at h
      by_cases h0 : 0 < af.uncompressed
      · rw [if_pos h0] at h
        cases hm : move_fp_to_correct_spot z af with
        | error e =>
            rw [hm] at h
            simp at h
        | ok pr =>
            obtain ⟨pos, checked⟩ := pr
            rw [hm] at h
            dsimp only at h
            injection h with h'
            subst h'
            exact ⟨rfl, rfl⟩
      · rw [if_neg h0] at h
        dsimp only at h
        injection h with h'
        subst h'
        exact ⟨rfl, rfl⟩

/-- Constructing a stream for a found entry of positive size whose filename
the folder scan locates at pack position `p`: the byte source is seeked to
`src_start + p` and the decompressor is instantiated. -/
theorem initStream_ok_of_found (z : SmartOpen7z) (name : String) (af : ArchiveFile)
    (p : Nat) (hfind : get_archive_file z name = some af) (h0 : 0 < af.uncompressed)
    (hloop : folder_position_loop z.folders z.packpositions af.filename = some p) :
    initStream z name =
      (Except.ok
        { archiveFile := af, crc32 := 0, pct_complete := 0,
          out_remaining := af.uncompressed, fpPos := z.src_start + p,
          decompressorLoaded := true }, [z.src_start + p]) := by
  unfold initStream
  rw [hfind]
  dsimp only
  rw [if_pos h0]
  unfold move_fp_to_correct_spot
  rw [hloop]

/-- Constructing a stream for a found entry of size zero: no positioning, no
seek, no decompressor. -/
theorem initStream_zero (z : SmartOpen7z) (name : String) (af : ArchiveFile)
    (hfind : get_archive_file z name = some af) (hu : af.uncompressed = 0) :
    initStream z name =
      (Except.ok
        { archiveFile := af, crc32 := 0, pct_complete := 0,
          out_remaining := af.uncompressed, fpPos := z.src_start,
          decompressorLoaded := false }, []) := by
  unfold initStream
  rw [hfind]
  dsimp only
  rw [if_neg (by omega)]

/-! ## Claim theorems -/

/-- C1: for every entry stream, once the remaining-byte count is zero for a
file with nonzero uncompressed length, the next pull compares the
accumulated CRC-32 to the entry's expected checksum: on match it raises the
iteration-stop signal (`StopIteration`), and on mismatch it fails with a
checksum-mismatch error carrying the file's name, the expected checksum and
the computed checksum. -/
theorem c1_end_of_stream_checksum (s : StreamState) (rp : Bool) (e : ℚ)
    (d : List Nat) (h0 : s.out_remaining = 0)
    (hu : s.archiveFile.uncompressed ≠ 0) :
    (s.crc32 = s.archiveFile.crc32 →
      next_ s rp e d = (NextResult.stopIteration, s, none)) ∧
    (s.crc32 ≠ s.archiveFile.crc32 →
      next_ s rp e d =
        (NextResult.checksumIncorrect s.archiveFile.filename s.archiveFile.crc32
          s.crc32, s, none)) := by
  rw [next_terminal s rp e d h0]
  constructor
  · intro hc
    rw [if_neg hu, if_neg (fun hne => hne hc)]
  · intro hc
    rw [if_neg hu, if_pos hc]

/-- Witness for C1 at a drained matching-checksum state. -/
theorem c1_end_of_stream_checksum_witness :
    next_ sC1 false 0 [] = (NextResult.stopIteration, sC1, none) :=
  (c1_end_of_stream_checksum sC1 false 0 [] rfl (by decide)).1 rfl

/-- C10: for every pull on a stream whose remaining-byte count is strictly
positive, if the decoder returns an empty chunk, `__next__` falls through
the `len(tmp) > 0` guard and implicitly returns Python's `None` — neither a
bytes chunk nor the end-of-iteration signal, so a consumer loop can receive
a non-bytes value. -/
theorem c10_empty_chunk_returns_none (s : StreamState) (rp : Bool) (e : ℚ)
    (d : List Nat) (h : 0 < s.out_remaining) (hd : d.length = 0) :
    (next_ s rp e d).1 = NextResult.pyNone := by
  unfold next_
  rw [if_pos h, if_neg (by omega)]

/-- Witness for C10: an empty decoded chunk mid-stream yields `None`. -/
theorem c10_empty_chunk_returns_none_witness :
    (next_ sC8 false 0 []).1 = NextResult.pyNone :=
  c10_empty_chunk_returns_none sC8 false 0 [] (by decide) rfl

/-- C5: for every file whose uncompressed length is zero, stream
construction performs no positioning seek (the seek trace is empty) and
leaves the decompressor uninstantiated, the checksum accumulator stays `0`
(no comparison is ever made — a vacuous match), and the first pull signals
end-of-sequence directly from the primed state with no decode work and no
state change. -/
theorem c5_zero_length_file (z : SmartOpen7z) (name : String) (af : ArchiveFile)
    (hfind : get_archive_file z name = some af) (hu : af.uncompressed = 0) :
    initStream z name =
      (Except.ok
        { archiveFile := af, crc32 := 0, pct_complete := 0,
          out_remaining := 0, fpPos := z.src_start,
          decompressorLoaded := false }, []) ∧
    (∀ (rp : Bool) (e : ℚ) (d : List Nat),
      next_
        { archiveFile := af, crc32 := 0, pct_complete := 0,
          out_remaining := 0, fpPos := z.src_start,
          decompressorLoaded := false } rp e d =
      (NextResult.stopIteration,
       { archiveFile := af, crc32 := 0, pct_complete := 0,
         out_remaining := 0, fpPos := z.src_start,
         decompressorLoaded := false }, none)) := by
  constructor
  · rw [initStream_zero z name af hfind hu, hu]
  · intro rp e d
    rw [next_terminal _ rp e d rfl, if_pos hu]

/-- Witness for C5 at the empty `y.txt` of the demo archive. -/
theorem c5_zero_length_file_witness :
    initStream zDemo "y.txt" =
      (Except.ok
        { archiveFile := fileY, crc32 := 0, pct_complete := 0,
          out_remaining := 0, fpPos := zDemo.src_start,
          decompressorLoaded := false }, []) ∧
    (∀ (rp : Bool) (e : ℚ) (d : List Nat),
      next_
        { archiveFile := fileY, crc32 := 0, pct_complete := 0,
          out_remaining := 0, fpPos := zDemo.src_start,
          decompressorLoaded := false } rp e d =
      (NextResult.stopIteration,
       { archiveFile := fileY, crc32 := 0, pct_complete := 0,
         out_remaining := 0, fpPos := zDemo.src_start,
         decompressorLoaded := false }, none)) :=
  c5_zero_length_file zDemo "y.txt" fileY rfl rfl

/-- C6 counterexample: requesting a stream for a name absent from the demo
catalog does not return a `NotFound` result — the code's lookup returns
Python `None` and the constructor then raises `AttributeError` reading
`.uncompressed` from it (the embedding's `PyError.attributeError`; no
`NotFound` value exists anywhere in the code). -/
theorem c6_counterexample :
    initStream zDemo "nope.txt" = (Except.error PyError.attributeError, []) := rfl

/-- C6 (amended): requesting a stream for a filename absent from the catalog
fails with an `AttributeError` on the `None` lookup result (not a
distinguished `NotFound` value), and no positioning seek is performed before
the failure, so the byte source stays where archive construction left it. -/
theorem c6_absent_name_attribute_error (z : SmartOpen7z) (name : String)
    (h : ∀ f ∈ z.files, f.filename ≠ name) :
    initStream z name = (Except.error PyError.attributeError, []) := by
  unfold initStream
  have hfind : get_archive_file z name = none := by
    unfold get_archive_file
    rw [List.find?_eq_none]
    intro f hf
    simp [h f hf]
  rw [hfind]

/-- Witness for the amended C6. -/
theorem c6_absent_name_attribute_error_witness :
    initStream zDemo "ghost.name" = (Except.error PyError.attributeError, []) :=
  c6_absent_name_attribute_error zDemo "ghost.name" (by decide)

/-- C7 counterexample: positioning for `ghost.txt`, a catalogued file found
in no folder of its archive, fails with the incidental unbound-local
`NameError` (reading `folder_position` before assignment), not with a
distinguished `CatalogInconsistency` error — no such error exists in the
code. -/
theorem c7_counterexample :
    move_fp_to_correct_spot zBad fileGhost = Except.error PyError.nameError := rfl

/-- C7 (amended): for every catalog in which the target's filename appears
in no folder of the unpack info, positioning fails — but with the incidental
unbound-local `NameError`, not a distinguished catalog-inconsistency error.
(If the filename appears in some folder but not the recorded one, the walk
completes without any failure at all.) -/
theorem c7_missing_everywhere_name_error (z : SmartOpen7z) (af : ArchiveFile)
    (h : ∀ folder ∈ z.folders, ∀ g ∈ folder.files, g.filename ≠ af.filename) :
    move_fp_to_correct_spot z af = Except.error PyError.nameError := by
  unfold move_fp_to_correct_spot
  rw [folder_position_loop_none z.folders z.packpositions af.filename h]

/-- Witness for the amended C7. -/
theorem c7_missing_everywhere_name_error_witness :
    move_fp_to_correct_spot zBad fileGhost = Except.error PyError.nameError :=
  c7_missing_everywhere_name_error zBad fileGhost (by decide)

/-- C3: for every target file with nonzero uncompressed length in a
consistent catalog (its folder is folder `i` of the unpack info, its
filename occurs nowhere else), positioning seeks the byte source to the
owning folder's start offset (`src_start + packpositions[i]`) and hands the
skip-decoder, in folder order, exactly the non-empty files preceding the
target — so for a folder `[a, b, c]` with target `c` exactly
`a.uncompressed + b.uncompressed` decoded bytes are discarded, and none of
`c`'s bytes are decoded during positioning (the target is not in the
skip list). -/
theorem c3_positioning_skips (z : SmartOpen7z) (af : ArchiveFile) (i : Nat)
    (pre post : List FileEntry) (t : FileEntry)
    (hu : af.uncompressed ≠ 0)
    (hi : i < z.folders.length)
    (hifolder : z.folders.getD i ⟨[]⟩ = af.folder)
    (honly : ∀ j, j < z.folders.length → j ≠ i →
      ∀ g ∈ (z.folders.getD j ⟨[]⟩).files, g.filename ≠ af.filename)
    (hfiles : af.folder.files = pre ++ t :: post)
    (ht : t.filename = af.filename)
    (hpre : ∀ g ∈ pre, g.filename ≠ af.filename)
    (hpost : ∀ g ∈ post, g.filename ≠ af.filename) :
    move_fp_to_correct_spot z af =
      Except.ok (z.src_start + z.packpositions.getD i 0,
        pre.filter (fun g => g.emptystream = false)) := by
  have hmem : t ∈ (z.folders.getD i ⟨[]⟩).files := by
    rw [hifolder, hfiles]
    exact List.mem_append_right _ (List.mem_cons_self _ _)
  unfold move_fp_to_correct_spot
  rw [folder_position_loop_unique z.folders z.packpositions af.filename i hi
      ⟨t, hmem, ht⟩ honly]
  dsimp only
  rw [hfiles, check_loop_eq af.filename pre post t ht hpre hpost]

/-- Witness for C3: positioning for `c.txt` in the folder
`[a.txt (10), b.txt (20), y.txt (empty), c.txt (40)]` seeks to
`32 + packpositions[0]` and skip-decodes exactly `a.txt` and `b.txt`
(30 bytes); the empty `y.txt` contributes nothing and `c.txt` is not
skip-decoded. -/
theorem c3_positioning_skips_witness :
    move_fp_to_correct_spot zDemo fileC =
      Except.ok (zDemo.src_start + zDemo.packpositions.getD 0 0,
        [entryA, entryB, entryY].filter (fun g => g.emptystream = false)) :=
  c3_positioning_skips zDemo fileC 0 [entryA, entryB, entryY] [] entryC
    (by decide) (by decide) (by decide) (by decide) (by decide) (by decide)
    (by decide) (by decide)

/-- C4 (code bug): `get_stream_portion` promises, per its own docstring and
the spec, to start the stream at percentage `p` of the target file; but
`set_start_pct` only prints and mutates nothing (its `move` helper is never
called), so the returned stream is identical to a full-file stream for
every archive, name and percentage — in particular requesting the second
half of the 40-byte `c.txt` still leaves all 40 bytes remaining. -/
theorem c4_portion_is_noop :
    (∀ (z : SmartOpen7z) (name : String) (pct : ℚ),
      get_stream_portion z name pct = get_stream z name) ∧
    (get_stream_portion zDemo "c.txt" (1 / 2)).1.toOption.map
      StreamState.out_remaining = some 40 := by
  constructor
  · intro z name pct
    unfold get_stream_portion set_start_pct get_stream
    have hmap : Except.map (fun s : StreamState => s) (initStream z name).1 =
        (initStream z name).1 := by
      cases (initStream z name).1 <;> rfl
    show (Except.map (fun s : StreamState => s) (initStream z name).1,
      (initStream z name).2) = initStream z name
    rw [hmap]
  · rfl

/-- C2: for every file of the archive for which a stream is successfully
constructed, fully streaming it against any decoder whose every call
returns a non-empty chunk of at most the requested length emits a total
number of bytes exactly equal to the file's declared uncompressed length,
the final accumulated CRC-32 is the CRC-32 of the emitted content, and on
an uncorrupted archive — one whose stored checksum equals the CRC-32 of the
decoded content — the final checksum equals the stored one and the stream
ends with the iteration-stop signal. -/
theorem c2_full_stream {σ : Type} (z : SmartOpen7z) (name : String)
    (s : StreamState) (seeks : List Nat) (dec : σ → Nat → List Nat × σ) (st : σ)
    (hinit : initStream z name = (Except.ok s, seeks))
    (hdec : ∀ stx n, 0 < n → (dec stx n).1 ≠ [] ∧ (dec stx n).1.length ≤ n) :
    ((runStream dec s st).1.map List.length).sum = s.archiveFile.uncompressed ∧
    (runStream dec s st).2.1.crc32 =
      calculate_crc32 (runStream dec s st).1.flatten 0 ∧
    (calculate_crc32 (runStream dec s st).1.flatten 0 = s.archiveFile.crc32 →
      (runStream dec s st).2.1.crc32 = s.archiveFile.crc32 ∧
      (runStream dec s st).2.2 = NextResult.stopIteration) := by
  obtain ⟨hcrc0, hrem⟩ :=
    initStream_ok_fields z name s (by rw [hinit])
  obtain ⟨hsum, hcrc, _, _, hres⟩ := runStream_total dec hdec s st
  have hjoin : (runStream dec s st).2.1.crc32 =
      calculate_crc32 (runStream dec s st).1.flatten 0 := by
    rw [hcrc, hcrc0, calculate_crc32_join _ (by norm_num)]
  refine ⟨by rw [hsum, hrem], hjoin, fun hok => ⟨by rw [hjoin, hok], ?_⟩⟩
  rw [hres]
  rcases Decidable.em (s.archiveFile.uncompressed = 0) with hz | hz
  · rw [if_pos hz]
  · rw [if_neg hz, if_neg (fun hne => hne (by rw [hjoin, hok]))]

/-- Witness for C2: streaming `w.bin` (2 bytes, stored CRC-32 of `[7, 7]`)
against a decoder that always yields the byte `7`. -/
theorem c2_full_stream_witness :
    ((runStream constDec sW ()).1.map List.length).sum =
      sW.archiveFile.uncompressed ∧
    (runStream constDec sW ()).2.1.crc32 =
      calculate_crc32 (runStream constDec sW ()).1.flatten 0 ∧
    (calculate_crc32 (runStream constDec sW ()).1.flatten 0 =
        sW.archiveFile.crc32 →
      (runStream constDec sW ()).2.1.crc32 = sW.archiveFile.crc32 ∧
      (runStream constDec sW ()).2.2 = NextResult.stopIteration) :=
  c2_full_stream zW "w.bin" sW [32] constDec () rfl
    (fun _ n hn => ⟨by simp [constDec], by simpa [constDec] using hn⟩)

/-- C8: with bytes still remaining, the progress block of `__next__`
computes, exactly when the completed fraction is strictly positive, the
projected total time as `elapsed / pct_complete` and the projected
remaining time as that total minus `elapsed`; at completed fraction zero
the projections are omitted; and toggling `report_progress` changes neither
the pull's result nor any of the decode state (remaining count, checksum,
byte-source position, decompressor flag). -/
theorem c8_progress_estimation (s : StreamState) (e : ℚ) (d : List Nat)
    (rp rp' : Bool) (h : 0 < s.out_remaining) :
    ((0 : ℚ) < 1 - (s.out_remaining : ℚ) / (s.archiveFile.uncompressed : ℚ) →
      (next_ s true e d).2.2 =
        some (e / (1 - (s.out_remaining : ℚ) / (s.archiveFile.uncompressed : ℚ)),
          e / (1 - (s.out_remaining : ℚ) / (s.archiveFile.uncompressed : ℚ)) - e)) ∧
    (1 - (s.out_remaining : ℚ) / (s.archiveFile.uncompressed : ℚ) = 0 →
      (next_ s true e d).2.2 = none) ∧
    (next_ s rp e d).1 = (next_ s rp' e d).1 ∧
    (next_ s rp e d).2.1 = (next_ s rp' e d).2.1 := by
  refine ⟨?_, ?_, ?_, ?_⟩
  · intro hp
    by_cases hd : 0 < d.length <;>
      simp [next_, h, hd, progress_report, hp]
  · intro hz
    by_cases hd : 0 < d.length <;>
      simp [next_, h, hd, progress_report, hz]
  · by_cases hd : 0 < d.length <;> simp [next_, h, hd]
  · by_cases hd : 0 < d.length <;> simp [next_, h, hd]

/-- Witness for C8 at the half-streamed `c.txt` state: with 20 of 40 bytes
remaining and 3 seconds elapsed, the projections are 6 seconds total and 3
seconds remaining. -/
theorem c8_progress_estimation_witness :
    ((0 : ℚ) < 1 - (sC8.out_remaining : ℚ) / (sC8.archiveFile.uncompressed : ℚ) →
      (next_ sC8 true 3 [5]).2.2 =
        some (3 / (1 - (sC8.out_remaining : ℚ) / (sC8.archiveFile.uncompressed : ℚ)),
          3 / (1 - (sC8.out_remaining : ℚ) / (sC8.archiveFile.uncompressed : ℚ)) - 3)) ∧
    (1 - (sC8.out_remaining : ℚ) / (sC8.archiveFile.uncompressed : ℚ) = 0 →
      (next_ sC8 true 3 [5]).2.2 = none) ∧
    (next_ sC8 true 3 [5]).1 = (next_ sC8 false 3 [5]).1 ∧
    (next_ sC8 true 3 [5]).2.1 = (next_ sC8 false 3 [5]).2.1 :=
  c8_progress_estimation sC8 3 [5] true false (by decide)

/-- A complete one-file extraction: for a catalogued non-empty file whose
name is unique and found in some folder, and a decoder chunk sequence of
non-empty chunks totalling its length with the matching CRC-32,
`decompress_file` writes exactly those chunks, in order, and the stream
ends with the iteration-stop signal. -/
theorem decompress_file_ok (z : SmartOpen7z) (f : ArchiveFile)
    (cs : List (List Nat))
    (hdist : z.files.Pairwise (fun a b => a.filename ≠ b.filename))
    (hmem : f ∈ z.files) (hu : f.uncompressed ≠ 0)
    (hfound : ∃ folder ∈ z.folders, ∃ g ∈ folder.files, g.filename = f.filename)
    (hne : ∀ c ∈ cs, c ≠ [])
    (hsum : (cs.map List.length).sum = f.uncompressed)
    (hcrc : calculate_crc32 cs.flatten 0 = f.crc32) :
    decompress_file z f.filename cs = Except.ok (cs, NextResult.stopIteration) := by
  have hfind := get_archive_file_of_mem z f hdist hmem
  have hsome := folder_position_loop_isSome z.folders z.packpositions f.filename hfound
  obtain ⟨p, hp⟩ := Option.isSome_iff_exists.mp hsome
  have hinit := initStream_ok_of_found z f.filename f p hfind
    (Nat.pos_of_ne_zero hu) hp
  unfold decompress_file
  rw [hinit]
  dsimp only
  obtain ⟨h1, h2, h3⟩ := runStream_listDec cs
    { archiveFile := f, crc32 := 0, pct_complete := 0,
      out_remaining := f.uncompressed, fpPos := z.src_start + p,
      decompressorLoaded := true } hne (by simpa using hsum)
  rw [h1, h3]
  dsimp only
  have hfold : List.foldl (fun k c => calculate_crc32 c k) (0 : Nat) cs = f.crc32 := by
    rw [calculate_crc32_join _ (by norm_num), hcrc]
  rw [if_neg hu, if_neg (fun hne2 => hne2 hfold)]

/-- Unrolling the `decompress_all` fold: zero-length files are skipped and
each survivor contributes its sink URL and its written chunks, in catalog
order. -/
theorem decompress_all_fold (z : SmartOpen7z) (url : String)
    (oracle : String → List (List Nat)) (l : List ArchiveFile) :
    ∀ acc : List (String × Except PyError (List (List Nat) × NextResult)),
    (∀ f ∈ l, f.uncompressed ≠ 0 →
      decompress_file z f.filename (oracle f.filename) =
        Except.ok (oracle f.filename, NextResult.stopIteration)) →
    l.foldl
      (fun acc file =>
        if file.uncompressed = 0 then acc
        else acc ++ [(url ++ "/" ++ file.filename,
                      decompress_file z file.filename (oracle file.filename))])
      acc =
      acc ++ (l.filter (fun f => decide (f.uncompressed ≠ 0))).map
        (fun f => (url ++ "/" ++ f.filename,
          Except.ok (oracle f.filename, NextResult.stopIteration))) := by
  induction l with
  | nil =>
      intro acc _
      simp
  | cons f l ih =>
      intro acc hstep
      rw [List.foldl_cons]
      have htail : ∀ g ∈ l, g.uncompressed ≠ 0 →
          decompress_file z g.filename (oracle g.filename) =
            Except.ok (oracle g.filename, NextResult.stopIteration) :=
        fun g hg => hstep g (List.mem_cons_of_mem f hg)
      by_cases hz : f.uncompressed = 0
      · rw [if_pos hz, ih acc htail]
        simp [List.filter_cons, hz]
      · rw [if_neg hz, ih _ htail,
          hstep f (List.mem_cons_self f l) hz]
        simp [List.filter_cons, hz]

/-- C9: whole-archive extraction iterates the catalog's file list in catalog
order, skips every file whose uncompressed length is zero, and performs a
complete one-file extraction for each remaining file, writing that file's
chunks to its own sink (`out_folder_url + "/" + filename`) in the order the
stream produces them. -/
theorem c9_decompress_all (z : SmartOpen7z) (url : String)
    (oracle : String → List (List Nat))
    (hdist : z.files.Pairwise (fun a b => a.filename ≠ b.filename))
    (hpos : ∀ f ∈ z.files, f.uncompressed ≠ 0 →
      ∃ folder ∈ z.folders, ∃ g ∈ folder.files, g.filename = f.filename)
    (horacle : ∀ f ∈ z.files, f.uncompressed ≠ 0 →
      (∀ c ∈ oracle f.filename, c ≠ []) ∧
      ((oracle f.filename).map List.length).sum = f.uncompressed ∧
      calculate_crc32 (oracle f.filename).flatten 0 = f.crc32) :
    decompress_all z url oracle =
      (z.files.filter (fun f => decide (f.uncompressed ≠ 0))).map
        (fun f => (url ++ "/" ++ f.filename,
          Except.ok (oracle f.filename, NextResult.stopIteration))) := by
  unfold decompress_all
  rw [decompress_all_fold z url oracle z.files []
    (fun f hf hu =>
      decompress_file_ok z f (oracle f.filename) hdist hf hu (hpos f hf hu)
        (horacle f hf hu).1 (horacle f hf hu).2.1 (horacle f hf hu).2.2)]
  simp

/-- Witness for C9 on the two-file archive: the zero-length `z0.bin` is
skipped and `w.bin` is extracted in full to `out/w.bin`. -/
theorem c9_decompress_all_witness :
    decompress_all zAll "out" oracleW =
      (zAll.files.filter (fun f => decide (f.uncompressed ≠ 0))).map
        (fun f => ("out" ++ "/" ++ f.filename,
          Except.ok (oracleW f.filename, NextResult.stopIteration))) :=
  c9_decompress_all zAll "out" oracleW (by decide) (by decide) (by decide)

end So7z
